import Mathlib

/-!
Verification of the reconciliation core of a brokerage-to-ledger sync tool.

The development shallowly embeds the decision logic of the sync module:
the two transaction normalizers, the identity extractor (a regex search for
a marker of the form transactionId=VALUE inside a free-text comment), the
duplicate detector, the diff engine, the fund-snapshot reconstructor, and
the historical unit-price lookup.

Modelling conventions:
  - Python dicts with a known field set become structures whose fields are
    wrapped in Option; an absent key is none.  Indexing a missing key
    (a Python KeyError) and a failed numeric conversion (ValueError) are
    modelled by Except String; exceptions propagate through the explicit
    sequencing combinator exBind, which mirrors Python's left-to-right,
    short-circuiting evaluation order.
  - Python numbers are embedded as Rat; a value that may be either a number
    or a string (the fee / quantity / unitPrice fields as delivered by the
    two remote systems) is a PyVal.  Python equality between a number and a
    string is False, which the derived DecidableEq of PyVal reproduces.
  - The builtin float() applied to a string is modelled by a decimal parser
    parseDecimal (sign, digits, optional fractional part); inputs outside
    this fragment are mapped to a conversion error, as float() raises.
  - The Python set of synced identifiers is represented by a list; only
    membership is ever consulted.
  - Valuation-history keys are "YYYY-MM-DD" strings in the canonical
    zero-padded form, so key equality coincides with equality of the parsed
    dates and strptime ordering coincides with lexicographic ordering of
    the fields; they are embedded as VDate triples with that ordering.
  - datetime.now() is an ambient input and becomes an explicit argument.
-/

instance {ε α : Type} [DecidableEq ε] [DecidableEq α] : DecidableEq (Except ε α) :=
  fun a b =>
    match a, b with
    | .ok a, .ok b =>
      if h : a = b then .isTrue (by rw [h])
      else .isFalse (by intro hh; cases hh; exact h rfl)
    | .error a, .error b =>
      if h : a = b then .isTrue (by rw [h])
      else .isFalse (by intro hh; cases hh; exact h rfl)
    | .ok _, .error _ => .isFalse (by intro hh; cases hh)
    | .error _, .ok _ => .isFalse (by intro hh; cases hh)

/-- A Python scalar that is either a number or a string. -/
inductive PyVal where
  | num : Rat → PyVal
  | str : String → PyVal
deriving DecidableEq, Repr

/-- Python abs() on a number. -/
def pyAbs (q : Rat) : Rat := if q < 0 then -q else q

/-- Numeric value of a digit run. -/
def digitsVal (l : List Char) : Nat :=
  l.foldl (fun a c => a * 10 + (c.toNat - 48)) 0

/-- Decimal fragment of Python float(string): optional sign, integer part,
optional fractional part; at least one digit overall. -/
def parseDecimal (s : String) : Option Rat :=
  let l := s.toList
  let sign : Int := match l with
    | '-' :: _ => -1
    | _ => 1
  let body : List Char := match l with
    | '-' :: t => t
    | '+' :: t => t
    | _ => l
  let intPart := body.takeWhile (fun c => c.isDigit)
  let rest := body.dropWhile (fun c => c.isDigit)
  match rest with
  | [] =>
    if intPart = [] then none
    else some (Rat.ofInt (sign * (digitsVal intPart : Int)))
  | '.' :: frac =>
    if frac.all (fun c => c.isDigit) && !(intPart = [] && frac = []) then
      some ((Rat.ofInt (sign * ((digitsVal intPart * 10 ^ frac.length + digitsVal frac : Nat) : Int))) /
            Rat.ofInt ((10 ^ frac.length : Nat) : Int))
    else none
  | _ => none

/-- Python float(x) for a scalar: identity on numbers, decimal parse on
strings, ValueError otherwise. -/
def pyFloat : PyVal → Except String Rat
  | .num q => .ok q
  | .str s =>
    match parseDecimal s with
    | some q => .ok q
    | none => .error "ValueError: could not convert string to float"

/-- Left-to-right, short-circuiting sequencing of fallible steps: the
embedding of Python control flow in which the first raised exception
propagates. -/
def exBind (x : Except String α) (f : α → Except String β) : Except String β :=
  match x with
  | .error e => .error e
  | .ok a => f a

/-- Indexing a dict with a required key: act[key]. -/
def need (o : Option α) (key : String) : Except String α :=
  match o with
  | some v => .ok v
  | none => .error ("KeyError: " ++ key)

/-- The nested SymbolProfile sub-record of a ledger activity. -/
structure SymbolProfileRec where
  symbol : Option String := none
  name : Option String := none
  currency : Option String := none
deriving DecidableEq, Repr

/-- A raw activity: the union of the ledger shape and the
brokerage/synthetic shape, every field optional (absent key = none). -/
structure Act where
  id : Option PyVal := none
  accountId : Option PyVal := none
  date : Option String := none
  fee : Option PyVal := none
  quantity : Option PyVal := none
  symbol : Option String := none
  SymbolProfile : Option SymbolProfileRec := none
  type : Option String := none
  unitPrice : Option PyVal := none
  comment : Option String := none
  currency : Option String := none
  dataSource : Option String := none
deriving DecidableEq, Repr

/-- The canonical seven-field transaction produced by both normalizers. -/
structure CanonAct where
  accountId : PyVal
  date : String
  fee : Rat
  quantity : Rat
  symbol : String
  type : String
  unitPrice : PyVal
deriving DecidableEq, Repr

/-- The fallback branch of the ledger-path symbol resolution: the warning
log eagerly evaluates act["id"] (raising KeyError when absent) and then the
symbol falls back to act.get("symbol", ""). -/
def symbol_fallback (act : Act) : Except String String :=
  match act.id with
  | none => .error "KeyError: id"
  | some _ => .ok (act.symbol.getD "")

/-- Ledger-path normalizer format_existing_act (symbol_type left at its
default "symbol"): resolve the nested symbol, falling back when it is
absent or empty; then build the canonical record, taking abs() of the
float() of fee and quantity, the first 18 characters of date, and
unitPrice untransformed. -/
def format_existing_act (act : Act) : Except String CanonAct :=
  exBind (match (match act.SymbolProfile with
                 | some p => p.symbol
                 | none => some "") with
          | some s => if s.length = 0 then symbol_fallback act else .ok s
          | none => symbol_fallback act) fun symbol =>
  exBind (need act.accountId "accountId") fun accountId =>
  exBind (need act.date "date") fun date =>
  exBind (exBind (need act.fee "fee") pyFloat) fun fee =>
  exBind (exBind (need act.quantity "quantity") pyFloat) fun quantity =>
  exBind (need act.type "type") fun ty =>
  exBind (need act.unitPrice "unitPrice") fun unitPrice =>
  .ok { accountId := accountId, date := date.take 18, fee := pyAbs fee,
        quantity := pyAbs quantity, symbol := symbol, type := ty,
        unitPrice := unitPrice }

/-- Brokerage/synthetic-path normalizer format_new_act (symbol_type left at
its default "symbol"): the flat symbol with default "", otherwise the same
canonical construction as the ledger path. -/
def format_new_act (act : Act) : Except String CanonAct :=
  exBind (need act.accountId "accountId") fun accountId =>
  exBind (need act.date "date") fun date =>
  exBind (exBind (need act.fee "fee") pyFloat) fun fee =>
  exBind (exBind (need act.quantity "quantity") pyFloat) fun quantity =>
  exBind (need act.type "type") fun ty =>
  exBind (need act.unitPrice "unitPrice") fun unitPrice =>
  .ok { accountId := accountId, date := date.take 18, fee := pyAbs fee,
        quantity := pyAbs quantity, symbol := act.symbol.getD "",
        type := ty, unitPrice := unitPrice }

/-- The literal characters of the marker that precedes an embedded
transaction identifier. -/
def markerChars : List Char := "transactionId=".toList

/-- Whether p is an initial segment of s. -/
def beginsWith : List Char → List Char → Bool
  | [], _ => true
  | _ :: _, [] => false
  | p :: ps, c :: cs => p = c && beginsWith ps cs

/-- One anchored attempt of the regex transactionId=([^|]+): the match at
the start of s, whose captured group is the greedy nonempty run of
non-pipe characters after the marker. -/
def matchAt (s : List Char) : Option (List Char) :=
  if beginsWith markerChars s then
    if (s.drop markerChars.length).takeWhile (fun c => c ≠ '|') = [] then none
    else some ((s.drop markerChars.length).takeWhile (fun c => c ≠ '|'))
  else none

/-- re.search of transactionId=([^|]+): the anchored attempt at each
position from the left, first success wins. -/
def findMarker : List Char → Option (List Char)
  | [] => none
  | c :: t =>
    match matchAt (c :: t) with
    | some v => some v
    | none => findMarker t

/-- Identity extraction from an optional comment: absent comment or no
match yields absence. -/
def extract_transaction_id (comment : Option String) : Option String :=
  match comment with
  | none => none
  | some s => (findMarker s.toList).map fun l => String.mk l

/-- The synced-identifier set built by get_diff from the existing
activities: one extraction attempt per activity, failures contributing
nothing. -/
def synced_ids (old_acts : List Act) : List String :=
  old_acts.filterMap fun a => extract_transaction_id a.comment

/-- The legacy comparison loop of is_act_present: for each existing
activity, normalize it through the ledger path and the candidate through
the flat path, and stop at the first canonical match. -/
def legacy_compare (new_act : Act) : List Act → Except String Bool
  | [] => .ok false
  | e :: rest =>
    exBind (format_existing_act e) fun fe =>
    exBind (format_new_act new_act) fun fn =>
    if fe = fn then .ok true else legacy_compare new_act rest

/-- is_act_present: the identifier fast path (extract the candidate's own
transactionId; membership in the synced set short-circuits to True),
otherwise the legacy comparison. -/
def is_act_present (new_act : Act) (existing_acts : List Act)
    (synced_acts_ids : List String) : Except String Bool :=
  match extract_transaction_id new_act.comment with
  | some tid =>
    if tid ∈ synced_acts_ids then .ok true
    else legacy_compare new_act existing_acts
  | none => legacy_compare new_act existing_acts

/-- The candidate loop of get_diff: keep, in order, each candidate that
is_act_present rejects. -/
def diff_loop (old_acts : List Act) (ids : List String) :
    List Act → Except String (List Act)
  | [] => .ok []
  | n :: rest =>
    exBind (is_act_present n old_acts ids) fun p =>
    exBind (diff_loop old_acts ids rest) fun tail =>
    .ok (if p then tail else n :: tail)

/-- get_diff: build the synced-identifier set from the existing activities,
then filter the candidates. -/
def get_diff (old_acts new_acts : List Act) : Except String (List Act) :=
  diff_loop old_acts (synced_ids old_acts) new_acts

/-- A calendar date parsed from a canonical "YYYY-MM-DD" key. -/
structure VDate where
  y : Nat
  m : Nat
  d : Nat
deriving DecidableEq, Repr

/-- Chronological strict order of dates (the strptime datetime order). -/
def dateLt (a b : VDate) : Bool :=
  a.y < b.y || (a.y = b.y && (a.m < b.m || (a.m = b.m && a.d < b.d)))

/-- Chronological order of dates. -/
def dateLe (a b : VDate) : Bool := dateLt a b || a = b

/-- A brokerage fund holding: fundId or code, name, unit count, dollar
value, and the date-indexed valuation history. -/
structure Fund where
  fundId : Option Int := none
  code : Option String := none
  name : Option String := none
  units : Option Rat := none
  value : Option Rat := none
  valuation : Option (List (VDate × Rat)) := none
deriving DecidableEq, Repr

/-- str(fund.get('fundId') or fund.get('code', '')): the fundId when
present and truthy (a nonzero integer), else the code defaulted to the
empty string. -/
def fund_code (fund : Fund) : String :=
  match fund.fundId with
  | some i => if i = 0 then fund.code.getD "" else toString i
  | none => fund.code.getD ""

/-- Round-half-even to an integer: the semantics of Python round(). -/
def roundHalfEven (q : Rat) : Int :=
  let f := q.floor
  let r := q - (f : Rat)
  if r < 1/2 then f
  else if (1:Rat)/2 < r then f + 1
  else if f % 2 = 0 then f else f + 1

/-- Python round(x, 2). -/
def pyRound2 (q : Rat) : Rat := (Rat.ofInt (roundHalfEven (q * 100))) / 100

/-- Left-pad of a fractional part to four digits. -/
def pad4 (n : Nat) : String :=
  if n < 10 then "000" ++ toString n
  else if n < 100 then "00" ++ toString n
  else if n < 1000 then "0" ++ toString n
  else toString n

/-- The "%.4f" formatting of a number: round-half-even to four decimal
places and print with a sign. -/
def fmt4 (q : Rat) : String :=
  let scaled := roundHalfEven (q * 10000)
  let sign := if scaled < 0 then "-" else ""
  let n := scaled.natAbs
  sign ++ toString (n / 10000) ++ "." ++ pad4 (n % 10000)

/-- The audit annotation written on each synthetic holding: the true units
and the per-unit price value/units. -/
def mkHoldingComment (units value : Rat) : String :=
  "Current holdings: " ++ fmt4 units ++ " units @ $" ++
    fmt4 (value / units) ++ " per unit"

/-- The per-holding body of reconstruct_fund_purchases: skip a holding with
non-positive value or units, skip an unmapped (or empty-symbol) fund code,
otherwise emit one synthetic BUY with quantity round(value, 2), unit price
1.0, zero fee, today's date and the audit comment.  Total by construction:
an unmapped code yields none, never an error. -/
def emit_holding (mapping : String → Option String) (currency today : String)
    (fund : Fund) : Option Act :=
  let units := fund.units.getD 0
  let value := fund.value.getD 0
  if value ≤ 0 ∨ units ≤ 0 then none
  else
    match mapping (fund_code fund) with
    | none => none
    | some symbol =>
      if symbol = "" then none
      else some
        { id := none
          accountId := none
          comment := some (mkHoldingComment units value)
          currency := some currency
          dataSource := some "MANUAL"
          date := some today
          fee := some (.num 0)
          quantity := some (.num (pyRound2 value))
          symbol := some symbol
          SymbolProfile := none
          type := some "BUY"
          unitPrice := some (.num 1) }

/-- reconstruct_fund_purchases over a list of holdings (the transactions
and account-details arguments of the source method are unused by its body
and are omitted; the instance state fund_mapping / ghost_currency and the
ambient clock are explicit arguments). -/
def reconstruct_fund_purchases (mapping : String → Option String)
    (currency today : String) (portfolio_funds : List Fund) : List Act :=
  portfolio_funds.filterMap (emit_holding mapping currency today)

/-- The built-in brokerage-code to ledger-symbol table seeded in the
constructor (before any external overlay). -/
def default_fund_mapping : List (String × String) :=
  [("810001", "GF_KOURACASH"), ("810002", "GF_KOURAFI"),
   ("810003", "GF_KOURANZEQ"), ("810004", "GF_KOURAUSEQ"),
   ("810005", "GF_KOURAROWEQ"), ("810006", "GF_KOURAEMEQ"),
   ("810007", "GF_KOURABTC"), ("810008", "GF_KOURACLEAN"),
   ("810009", "GF_KOURAPROP"), ("810010", "GF_KOURASTRAT")]

/-- The accumulator step of the closest-previous-date scan of
get_unit_price_for_date: an entry not after the requested date replaces
the running closest when none is held yet or when it is strictly later. -/
def closest_step (td : VDate) (acc : Option VDate × Option Rat)
    (e : VDate × Rat) : Option VDate × Option Rat :=
  if dateLe e.1 td then
    match acc.1 with
    | none => (some e.1, some e.2)
    | some c => if dateLt c e.1 then (some e.1, some e.2) else acc
  else acc

/-- get_unit_price_for_date: the valuation dict with default {}, an exact
key lookup first, then the fold that retains the price at the greatest
valuation date not after the requested date, returning none when no such
date exists. -/
def get_unit_price_for_date (fund_data : Fund) (transaction_date : VDate) :
    Option Rat :=
  match (fund_data.valuation.getD []).lookup transaction_date with
  | some p => some p
  | none =>
    ((fund_data.valuation.getD []).foldl
      (closest_step transaction_date) (none, none)).2

theorem exBind_ok {α β : Type} {x : Except String α} {f : α → Except String β} {b : β}
    (h : exBind x f = .ok b) : ∃ a, x = .ok a ∧ f a = .ok b := by
  cases x with
  | error e => simp [exBind] at h
  | ok a => exact ⟨a, rfl, h⟩

theorem need_ok {α : Type} {o : Option α} {k : String} {a : α}
    (h : need o k = .ok a) : o = some a := by
  cases o with
  | none => simp [need] at h
  | some v => simp only [need, Except.ok.injEq] at h; subst h; rfl

theorem format_new_act_ok {act : Act} {v : CanonAct}
    (h : format_new_act act = .ok v) :
    ∃ a d f fr q qr ty u,
      act.accountId = some a ∧ act.date = some d ∧
      act.fee = some f ∧ pyFloat f = .ok fr ∧
      act.quantity = some q ∧ pyFloat q = .ok qr ∧
      act.type = some ty ∧ act.unitPrice = some u ∧
      v = { accountId := a, date := d.take 18, fee := pyAbs fr,
            quantity := pyAbs qr, symbol := act.symbol.getD "",
            type := ty, unitPrice := u } := by
  unfold format_new_act at h
  obtain ⟨a, ha, h⟩ := exBind_ok h
  obtain ⟨d, hd, h⟩ := exBind_ok h
  obtain ⟨fr, hfr, h⟩ := exBind_ok h
  obtain ⟨f, hf, hpf⟩ := exBind_ok hfr
  obtain ⟨qr, hqr, h⟩ := exBind_ok h
  obtain ⟨q, hq, hpq⟩ := exBind_ok hqr
  obtain ⟨ty, hty, h1⟩ := exBind_ok h
  obtain ⟨u, hu, h2⟩ := exBind_ok h1
  exact ⟨a, d, f, fr, q, qr, ty, u, need_ok ha, need_ok hd, need_ok hf, hpf,
         need_ok hq, hpq, need_ok hty, need_ok hu, (Except.ok.inj h2).symm⟩

theorem format_existing_act_ok {act : Act} {v : CanonAct}
    (h : format_existing_act act = .ok v) :
    ∃ sym a d f fr q qr ty u,
      act.accountId = some a ∧ act.date = some d ∧
      act.fee = some f ∧ pyFloat f = .ok fr ∧
      act.quantity = some q ∧ pyFloat q = .ok qr ∧
      act.type = some ty ∧ act.unitPrice = some u ∧
      v = { accountId := a, date := d.take 18, fee := pyAbs fr,
            quantity := pyAbs qr, symbol := sym,
            type := ty, unitPrice := u } := by
  unfold format_existing_act at h
  obtain ⟨sym, hsym, h⟩ := exBind_ok h
  obtain ⟨a, ha, h⟩ := exBind_ok h
  obtain ⟨d, hd, h⟩ := exBind_ok h
  obtain ⟨fr, hfr, h⟩ := exBind_ok h
  obtain ⟨f, hf, hpf⟩ := exBind_ok hfr
  obtain ⟨qr, hqr, h⟩ := exBind_ok h
  obtain ⟨q, hq, hpq⟩ := exBind_ok hqr
  obtain ⟨ty, hty, h1⟩ := exBind_ok h
  obtain ⟨u, hu, h2⟩ := exBind_ok h1
  exact ⟨sym, a, d, f, fr, q, qr, ty, u, need_ok ha, need_ok hd, need_ok hf, hpf,
         need_ok hq, hpq, need_ok hty, need_ok hu, (Except.ok.inj h2).symm⟩

/-- C4: whenever either normalizer produces an output, its fee is the
absolute value of the numeric conversion of the input fee, its quantity the
absolute value of the conversion of the input quantity, its date the first
18 characters of the input date, and its unitPrice the input unitPrice
untransformed. -/
theorem c4_normalizer_field_transforms (act : Act) (v : CanonAct)
    (h : format_existing_act act = .ok v ∨ format_new_act act = .ok v) :
    (∃ f r, act.fee = some f ∧ pyFloat f = .ok r ∧ v.fee = pyAbs r)
    ∧ (∃ q r, act.quantity = some q ∧ pyFloat q = .ok r ∧ v.quantity = pyAbs r)
    ∧ (∃ d, act.date = some d ∧ v.date = d.take 18)
    ∧ (∃ u, act.unitPrice = some u ∧ v.unitPrice = u) := by
  rcases h with h | h
  · obtain ⟨sym, a, d, f, fr, q, qr, ty, u, _, hd, hf, hpf, hq, hpq, _, hu, hv⟩ :=
      format_existing_act_ok h
    refine ⟨⟨f, fr, hf, hpf, ?_⟩, ⟨q, qr, hq, hpq, ?_⟩, ⟨d, hd, ?_⟩, ⟨u, hu, ?_⟩⟩ <;>
      rw [hv]
  · obtain ⟨a, d, f, fr, q, qr, ty, u, _, hd, hf, hpf, hq, hpq, _, hu, hv⟩ :=
      format_new_act_ok h
    refine ⟨⟨f, fr, hf, hpf, ?_⟩, ⟨q, qr, hq, hpq, ?_⟩, ⟨d, hd, ?_⟩, ⟨u, hu, ?_⟩⟩ <;>
      rw [hv]

def c4act : Act :=
  { accountId := some (.str "1"), date := some "2024-01-01T00:00:00",
    fee := some (.str "-3"), quantity := some (.num 5), symbol := some "S",
    type := some "BUY", unitPrice := some (.num 10) }

set_option maxHeartbeats 1600000 in
/-- Witness for C4: the concrete brokerage-shaped activity c4act. -/
theorem c4_witness :
    (format_new_act c4act = .ok { accountId := .str "1", date := "2024-01-01T00:00:0",
                                  fee := 3, quantity := 5, symbol := "S",
                                  type := "BUY", unitPrice := .num 10 })
    ∧ ((∃ f r, c4act.fee = some f ∧ pyFloat f = .ok r ∧ (3 : Rat) = pyAbs r)
       ∧ (∃ q r, c4act.quantity = some q ∧ pyFloat q = .ok r ∧ (5 : Rat) = pyAbs r)
       ∧ (∃ d, c4act.date = some d ∧ "2024-01-01T00:00:0" = d.take 18)
       ∧ (∃ u, c4act.unitPrice = some u ∧ PyVal.num 10 = u)) := by
  constructor
  · decide
  · exact c4_normalizer_field_transforms c4act
      { accountId := .str "1", date := "2024-01-01T00:00:0", fee := 3, quantity := 5,
        symbol := "S", type := "BUY", unitPrice := .num 10 } (Or.inr (by decide))

def c5act : Act :=
  { accountId := some (.str "1"), date := some "2024-01-01T00:00:00",
    fee := some (.num 0), quantity := some (.num 1), type := some "BUY",
    unitPrice := some (.num 1) }

set_option maxHeartbeats 1600000 in
/-- C5: the ledger-path normalizer raises KeyError for an activity lacking
both a resolvable symbol and the optional id field, because the fallback
warning log indexes act["id"]; with id present the same activity
normalizes, its absent symbol resolving to the empty string. -/
theorem c5_missing_id_keyerror :
    format_existing_act c5act = .error "KeyError: id"
    ∧ format_existing_act { c5act with id := some (.str "42") } =
        .ok { accountId := .str "1", date := "2024-01-01T00:00:0", fee := 0,
              quantity := 1, symbol := "", type := "BUY", unitPrice := .num 1 } := by
  exact ⟨by decide, by decide⟩

theorem mem_synced_ids {acts : List Act} {x : String} :
    x ∈ synced_ids acts ↔ ∃ a ∈ acts, extract_transaction_id a.comment = some x := by
  simp [synced_ids, List.mem_filterMap]

theorem synced_ids_append (l1 l2 : List Act) :
    synced_ids (l1 ++ l2) = synced_ids l1 ++ synced_ids l2 := by
  simp [synced_ids, List.filterMap_append]

theorem is_act_present_fast {c : Act} {olds : List Act} {ids : List String} {x : String}
    (hx : extract_transaction_id c.comment = some x) (hmem : x ∈ ids) :
    is_act_present c olds ids = .ok true := by
  unfold is_act_present
  rw [hx]
  simp [hmem]

theorem is_act_present_eq_legacy {c : Act} {olds : List Act} {ids : List String}
    (h : ∀ x, extract_transaction_id c.comment = some x → x ∉ ids) :
    is_act_present c olds ids = legacy_compare c olds := by
  unfold is_act_present
  cases hx : extract_transaction_id c.comment with
  | none => rfl
  | some x =>
    show (if x ∈ ids then Except.ok true else legacy_compare c olds) = legacy_compare c olds
    rw [if_neg (h x hx)]

theorem legacy_true_exists {c : Act} {l : List Act}
    (h : legacy_compare c l = .ok true) :
    ∃ e ∈ l, ∃ v, format_existing_act e = .ok v ∧ format_new_act c = .ok v := by
  induction l with
  | nil => simp [legacy_compare] at h
  | cons e0 rest ih =>
    unfold legacy_compare at h
    obtain ⟨fe, hfe, h⟩ := exBind_ok h
    obtain ⟨fn, hfn, h2⟩ := exBind_ok h
    by_cases hc : fe = fn
    · exact ⟨e0, List.mem_cons_self _ _, fe, hfe, hc ▸ hfn⟩
    · rw [if_neg hc] at h2
      obtain ⟨e, he, v, hv, hw⟩ := ih h2
      exact ⟨e, List.mem_cons_of_mem _ he, v, hv, hw⟩

theorem legacy_mem_true {c : Act} {l : List Act} {fc : CanonAct}
    (hok : ∀ e ∈ l, ∃ v, format_existing_act e = .ok v)
    (hfn : format_new_act c = .ok fc)
    (hmem : ∃ e ∈ l, format_existing_act e = .ok fc) :
    legacy_compare c l = .ok true := by
  induction l with
  | nil => obtain ⟨e, he, _⟩ := hmem; cases he
  | cons e0 rest ih =>
    obtain ⟨v0, hv0⟩ := hok e0 (List.mem_cons_self _ _)
    unfold legacy_compare
    rw [hv0]
    simp only [exBind]
    rw [hfn]
    simp only [exBind]
    by_cases hc : v0 = fc
    · simp [hc]
    · rw [if_neg hc]
      apply ih (fun e he => hok e (List.mem_cons_of_mem _ he))
      obtain ⟨e, he, hfe⟩ := hmem
      rcases List.mem_cons.mp he with rfl | he'
      · rw [hv0] at hfe
        exact absurd (Except.ok.inj hfe) hc
      · exact ⟨e, he', hfe⟩

theorem legacy_append_true {c : Act} {l1 l2 : List Act}
    (h : legacy_compare c l1 = .ok true) :
    legacy_compare c (l1 ++ l2) = .ok true := by
  induction l1 with
  | nil => simp [legacy_compare] at h
  | cons e rest ih =>
    unfold legacy_compare at h
    obtain ⟨fe, hfe, h⟩ := exBind_ok h
    obtain ⟨fn, hfn, h2⟩ := exBind_ok h
    rw [List.cons_append]
    unfold legacy_compare
    rw [hfe]
    simp only [exBind]
    rw [hfn]
    simp only [exBind]
    by_cases hc : fe = fn
    · simp [hc]
    · rw [if_neg hc] at h2
      rw [if_neg hc]
      exact ih h2

theorem legacy_append_false {c : Act} {l1 l2 : List Act}
    (h : legacy_compare c l1 = .ok false) :
    legacy_compare c (l1 ++ l2) = legacy_compare c l2 := by
  induction l1 with
  | nil => simp
  | cons e rest ih =>
    unfold legacy_compare at h
    obtain ⟨fe, hfe, h⟩ := exBind_ok h
    obtain ⟨fn, hfn, h2⟩ := exBind_ok h
    by_cases hc : fe = fn
    · rw [if_pos hc] at h2
      simp at h2
    · rw [if_neg hc] at h2
      rw [List.cons_append]
      have key : legacy_compare c (e :: (rest ++ l2)) = legacy_compare c (rest ++ l2) := by
        show (exBind (format_existing_act e) fun fe =>
          exBind (format_new_act c) fun fn =>
          if fe = fn then Except.ok true else legacy_compare c (rest ++ l2)) =
            legacy_compare c (rest ++ l2)
        rw [hfe]
        simp only [exBind]
        rw [hfn]
        simp only [exBind]
        rw [if_neg hc]
      rw [key]
      exact ih h2

theorem diff_loop_forall {olds : List Act} {ids : List String} {ns r : List Act}
    (h : diff_loop olds ids ns = .ok r) :
    ∀ n ∈ ns, ∃ b, is_act_present n olds ids = .ok b ∧ (b = false → n ∈ r) := by
  induction ns generalizing r with
  | nil => intro n hn; cases hn
  | cons m rest ih =>
    unfold diff_loop at h
    obtain ⟨p, hp, h⟩ := exBind_ok h
    obtain ⟨tail, htail, h2⟩ := exBind_ok h
    have hr : r = if p then tail else m :: tail := (Except.ok.inj h2).symm
    intro n hn
    rcases List.mem_cons.mp hn with rfl | hn'
    · refine ⟨p, hp, fun hb => ?_⟩
      subst hb
      rw [hr]
      simp
    · obtain ⟨b, hb1, hb2⟩ := ih htail n hn'
      refine ⟨b, hb1, fun hbf => ?_⟩
      have hmem := hb2 hbf
      rw [hr]
      cases p with
      | true => simpa using hmem
      | false => simpa using List.mem_cons_of_mem m hmem

theorem diff_loop_mem {olds : List Act} {ids : List String} {ns r : List Act}
    (h : diff_loop olds ids ns = .ok r) :
    ∀ x ∈ r, x ∈ ns ∧ is_act_present x olds ids = .ok false := by
  induction ns generalizing r with
  | nil =>
    unfold diff_loop at h
    have hr := (Except.ok.inj h).symm
    subst hr
    intro x hx
    cases hx
  | cons m rest ih =>
    unfold diff_loop at h
    obtain ⟨p, hp, h⟩ := exBind_ok h
    obtain ⟨tail, htail, h2⟩ := exBind_ok h
    have hr : r = if p then tail else m :: tail := (Except.ok.inj h2).symm
    subst hr
    intro x hx
    cases p with
    | true =>
      obtain ⟨h1, h2'⟩ := ih htail x (by simpa using hx)
      exact ⟨List.mem_cons_of_mem _ h1, h2'⟩
    | false =>
      rcases List.mem_cons.mp (by simpa using hx) with rfl | hx'
      · exact ⟨List.mem_cons_self _ _, hp⟩
      · obtain ⟨h1, h2'⟩ := ih htail x hx'
        exact ⟨List.mem_cons_of_mem _ h1, h2'⟩

theorem diff_loop_nil {olds : List Act} {ids : List String} {ns : List Act}
    (h : ∀ n ∈ ns, is_act_present n olds ids = .ok true) :
    diff_loop olds ids ns = .ok [] := by
  induction ns with
  | nil => rfl
  | cons m rest ih =>
    unfold diff_loop
    rw [h m (List.mem_cons_self _ _)]
    simp only [exBind]
    rw [ih (fun n hn => h n (List.mem_cons_of_mem _ hn))]
    simp [exBind]

/-- The classification a candidate receives inside get_diff: kept exactly
when is_act_present returns False. -/
def keeps (olds : List Act) (ids : List String) (n : Act) : Bool :=
  match is_act_present n olds ids with
  | .ok false => true
  | _ => false

/-- C7: a successful get_diff returns a subsequence of the candidate list in
the candidates' input order, consisting exactly of the candidates whose
present-check returned False. -/
theorem c7_diff_order_filter (olds news res : List Act)
    (h : get_diff olds news = .ok res) :
    List.Sublist res news ∧ res = news.filter (keeps olds (synced_ids olds)) := by
  unfold get_diff at h
  suffices hsuff : res = news.filter (keeps olds (synced_ids olds)) by
    rw [hsuff]
    exact ⟨List.filter_sublist news, rfl⟩
  induction news generalizing res with
  | nil =>
    unfold diff_loop at h
    simpa using (Except.ok.inj h).symm
  | cons m rest ih =>
    unfold diff_loop at h
    obtain ⟨p, hp, h⟩ := exBind_ok h
    obtain ⟨tail, htail, h2⟩ := exBind_ok h
    have hr : res = if p then tail else m :: tail := (Except.ok.inj h2).symm
    have ht := ih tail htail
    rw [List.filter_cons]
    cases p with
    | true =>
      have hk : keeps olds (synced_ids olds) m = false := by
        unfold keeps
        rw [hp]
      rw [hr, hk]
      simpa using ht
    | false =>
      have hk : keeps olds (synced_ids olds) m = true := by
        unfold keeps
        rw [hp]
      rw [hr, hk]
      simpa using ht

/-- C2 (amended): a candidate whose extracted identifier already occurs as
the extracted identifier of an existing activity is accepted by the fast
path alone (its remaining fields are wholly unconstrained, so the legacy
comparison is never needed) and is omitted from any successful diff. -/
theorem c2_fast_path_precedence (olds news : List Act) (e c : Act) (x : String)
    (he : e ∈ olds) (hex : extract_transaction_id e.comment = some x)
    (hc : c ∈ news) (hcx : extract_transaction_id c.comment = some x) :
    is_act_present c olds (synced_ids olds) = .ok true ∧
    ∀ res, get_diff olds news = .ok res → c ∉ res := by
  have hxm : x ∈ synced_ids olds := mem_synced_ids.mpr ⟨e, he, hex⟩
  have h1 : is_act_present c olds (synced_ids olds) = Except.ok true :=
    is_act_present_fast hcx hxm
  refine ⟨h1, fun res hres hcres => ?_⟩
  unfold get_diff at hres
  have h2 := (diff_loop_mem hres c hcres).2
  rw [h1] at h2
  simp at h2

/-- C1 (amended): idempotence of the diff.  If the first run returns
normally and every candidate normalizes successfully and identically under
both normalizers, then appending the first result to the existing
activities and rerunning with the same candidates yields the empty list. -/
theorem c1_idempotent (existing cands d : List Act)
    (h1 : get_diff existing cands = .ok d)
    (h2 : ∀ c ∈ cands, ∃ fc, format_existing_act c = .ok fc ∧ format_new_act c = .ok fc) :
    get_diff (existing ++ d) cands = .ok [] := by
  unfold get_diff at h1 ⊢
  rw [synced_ids_append]
  apply diff_loop_nil
  intro c hc
  obtain ⟨b, hb, himp⟩ := diff_loop_forall h1 c hc
  have hdsub : ∀ y ∈ d, y ∈ cands := fun y hy => (diff_loop_mem h1 y hy).1
  cases hx : extract_transaction_id c.comment with
  | some x =>
    by_cases hmem : x ∈ synced_ids existing ++ synced_ids d
    · exact is_act_present_fast hx hmem
    · have hx1 : x ∉ synced_ids existing := fun hh => hmem (List.mem_append_left _ hh)
      have hcd : c ∉ d := fun hcd =>
        hmem (List.mem_append_right _ (mem_synced_ids.mpr ⟨c, hcd, hx⟩))
      have hbt : b = true := by
        cases b with
        | false => exact absurd (himp rfl) hcd
        | true => rfl
      subst hbt
      have hf1 : ∀ y, extract_transaction_id c.comment = some y →
          y ∉ synced_ids existing := by
        intro y hy
        rw [hx] at hy
        injection hy with hyy
        subst hyy
        exact hx1
      have hf2 : ∀ y, extract_transaction_id c.comment = some y →
          y ∉ synced_ids existing ++ synced_ids d := by
        intro y hy
        rw [hx] at hy
        injection hy with hyy
        subst hyy
        exact hmem
      rw [is_act_present_eq_legacy hf2]
      rw [is_act_present_eq_legacy hf1] at hb
      exact legacy_append_true hb
  | none =>
    have hfn : ∀ y, extract_transaction_id c.comment = some y →
        y ∉ synced_ids existing ++ synced_ids d := by
      intro y hy
      rw [hx] at hy
      exact absurd hy (by simp)
    have hfn1 : ∀ y, extract_transaction_id c.comment = some y →
        y ∉ synced_ids existing := by
      intro y hy
      rw [hx] at hy
      exact absurd hy (by simp)
    rw [is_act_present_eq_legacy hfn]
    rw [is_act_present_eq_legacy hfn1] at hb
    cases b with
    | true => exact legacy_append_true hb
    | false =>
      have hcd : c ∈ d := himp rfl
      rw [legacy_append_false hb]
      obtain ⟨fc, hfe, hfnn⟩ := h2 c hc
      exact legacy_mem_true
        (fun e he => (h2 e (hdsub e he)).imp fun v hv => hv.1) hfnn ⟨c, hcd, hfe⟩

/-- A candidate whose flat symbol and nested profile symbol disagree. -/
def c1x : Act :=
  { accountId := some (.str "1"), date := some "2024-01-01T00:00:00",
    fee := some (.num 0), quantity := some (.num 1), symbol := some "A",
    SymbolProfile := some { symbol := some "B" }, type := some "BUY",
    unitPrice := some (.num 1) }

set_option maxHeartbeats 1600000 in
/-- Counterexample to C1 as stated: appending the first diff and rerunning
does not yield the empty list when a candidate's nested- and flat-symbol
resolutions disagree. -/
theorem c1_counterexample :
    get_diff [] [c1x] = .ok [c1x]
    ∧ get_diff ([] ++ [c1x]) [c1x] = .ok [c1x]
    ∧ (Except.ok [c1x] : Except String (List Act)) ≠ .ok [] := by
  exact ⟨by decide, by decide, by decide⟩

/-- A candidate that normalizes identically along both paths. -/
def c1w : Act :=
  { id := some (.str "9"), accountId := some (.str "1"),
    date := some "2024-01-01T00:00:00", fee := some (.num 0),
    quantity := some (.num 1), symbol := some "A", type := some "BUY",
    unitPrice := some (.num 1) }

/-- The canonical form of c1w. -/
def c1wcanon : CanonAct :=
  { accountId := .str "1", date := "2024-01-01T00:00:0", fee := 0,
    quantity := 1, symbol := "A", type := "BUY", unitPrice := .num 1 }

set_option maxHeartbeats 1600000 in
/-- Witness for C1 (amended) at a concrete run. -/
theorem c1_witness :
    get_diff [] [c1w] = .ok [c1w]
    ∧ (∀ c ∈ [c1w], ∃ fc, format_existing_act c = .ok fc ∧ format_new_act c = .ok fc)
    ∧ get_diff ([] ++ [c1w]) [c1w] = .ok [] := by
  have h2 : ∀ c ∈ [c1w], ∃ fc, format_existing_act c = Except.ok fc ∧
      format_new_act c = Except.ok fc := by
    intro c hc
    have hcw : c = c1w := List.mem_singleton.mp hc
    subst hcw
    exact ⟨c1wcanon, by decide, by decide⟩
  exact ⟨by decide, h2, c1_idempotent [] [c1w] [c1w] (by decide) h2⟩

/-- An existing activity carrying two identifier markers, Y before X. -/
def c2e : Act :=
  { id := some (.str "7"), accountId := some (.str "1"),
    date := some "2024-01-01T00:00:00", fee := some (.num 0),
    quantity := some (.num 1), SymbolProfile := some { symbol := some "S1" },
    type := some "BUY", unitPrice := some (.num 1),
    comment := some "transactionId=Y|transactionId=X" }

/-- A candidate whose comment contains the marker transactionId=X and whose
other fields differ from every existing activity. -/
def c2c : Act :=
  { accountId := some (.str "2"), date := some "2025-05-05T00:00:00",
    fee := some (.num 3), quantity := some (.num 9), symbol := some "S2",
    type := some "SELL", unitPrice := some (.num 4),
    comment := some "transactionId=X" }

set_option maxHeartbeats 1600000 in
/-- Counterexample to C2 as stated: both comments contain the well-formed
marker transactionId=X (X nonempty and pipe-free), yet the candidate is
kept, because the synced set holds only the first extracted identifier Y of
the existing comment. -/
theorem c2_counterexample :
    c2e.comment = some ("transactionId=Y|" ++ "transactionId=" ++ "X")
    ∧ c2c.comment = some ("" ++ "transactionId=" ++ "X")
    ∧ ("X" : String) ≠ ""
    ∧ (∀ ch ∈ ("X" : String).toList, ch ≠ '|')
    ∧ get_diff [c2e] [c2c] = .ok [c2c]
    ∧ (Except.ok [c2c] : Except String (List Act)) ≠ .ok [] := by
  exact ⟨by decide, by decide, by decide, by decide, by decide, by decide⟩

/-- An existing activity whose extracted identifier is K1. -/
def c2we : Act :=
  { id := some (.str "7"), accountId := some (.str "1"),
    date := some "2024-01-01T00:00:00", fee := some (.num 0),
    quantity := some (.num 1), SymbolProfile := some { symbol := some "S1" },
    type := some "BUY", unitPrice := some (.num 1),
    comment := some "note|transactionId=K1|more" }

/-- A candidate extracting the same K1 whose remaining fields are absent
altogether, so the legacy comparison could not even normalize it. -/
def c2wc : Act :=
  { comment := some "zz transactionId=K1" }

set_option maxHeartbeats 1600000 in
/-- Witness for C2 (amended) at a concrete pair of activities. -/
theorem c2_witness :
    extract_transaction_id c2we.comment = some "K1"
    ∧ extract_transaction_id c2wc.comment = some "K1"
    ∧ is_act_present c2wc [c2we] (synced_ids [c2we]) = .ok true
    ∧ get_diff [c2we] [c2wc] = .ok [] := by
  refine ⟨by decide, by decide, ?_, by decide⟩
  exact (c2_fast_path_precedence [c2we] [c2wc] c2we c2wc "K1"
    (List.mem_singleton.mpr rfl) (by decide) (List.mem_singleton.mpr rfl) (by decide)).1

/-- C3 (amended): when the fast path does not accept the candidate and
every existing activity normalizes without error, is_act_present returns
True exactly when some existing activity's ledger-path normalization equals
the candidate's flat-path normalization. -/
theorem c3_legacy_iff (c : Act) (existing : List Act) (ids : List String)
    (hfast : ∀ x, extract_transaction_id c.comment = some x → x ∉ ids)
    (hok : ∀ e ∈ existing, ∃ v, format_existing_act e = .ok v) :
    (is_act_present c existing ids = .ok true ↔
      ∃ e ∈ existing, ∃ v, format_existing_act e = .ok v ∧ format_new_act c = .ok v) := by
  rw [is_act_present_eq_legacy hfast]
  constructor
  · exact legacy_true_exists
  · rintro ⟨e, he, v, hv, hw⟩
    exact legacy_mem_true hok hw ⟨e, he, hv⟩

/-- A flat candidate with no comment. -/
def c3cand : Act :=
  { accountId := some (.str "1"), date := some "2024-01-01T00:00:00",
    fee := some (.num 0), quantity := some (.num 5),
    symbol := some "GF_KOURABTC", type := some "BUY",
    unitPrice := some (.num 10) }

/-- An existing ledger activity equal to c3cand after normalization, with
its fee and quantity as signed strings and its symbol nested. -/
def c3match : Act :=
  { id := some (.str "7"), accountId := some (.str "1"),
    date := some "2024-01-01T00:00:00", fee := some (.str "0"),
    quantity := some (.str "-5"),
    SymbolProfile := some { symbol := some "GF_KOURABTC" },
    type := some "BUY", unitPrice := some (.num 10) }

/-- An existing activity on which the ledger-path normalizer raises
(missing accountId). -/
def c3crash : Act :=
  { SymbolProfile := some { symbol := some "Z" },
    date := some "2024-01-01T00:00:00", fee := some (.num 0),
    quantity := some (.num 1), type := some "BUY",
    unitPrice := some (.num 1) }

/-- The shared canonical form of c3cand and c3match. -/
def c3canon : CanonAct :=
  { accountId := .str "1", date := "2024-01-01T00:00:0", fee := 0,
    quantity := 5, symbol := "GF_KOURABTC", type := "BUY",
    unitPrice := .num 10 }

set_option maxHeartbeats 1600000 in
/-- Counterexample to C3 as stated: a matching existing activity normalizes
to the candidate's canonical form, yet is_act_present does not return True,
because an earlier existing activity raises during its normalization. -/
theorem c3_counterexample :
    extract_transaction_id c3cand.comment = none
    ∧ c3match ∈ [c3crash, c3match]
    ∧ format_existing_act c3match = .ok c3canon
    ∧ format_new_act c3cand = .ok c3canon
    ∧ is_act_present c3cand [c3crash, c3match] [] = .error "KeyError: accountId" := by
  exact ⟨by decide, by decide, by decide, by decide, by decide⟩

set_option maxHeartbeats 1600000 in
/-- Witness for C3 (amended): the sign and string-versus-number differences
of c3match are normalized away and the candidate is detected. -/
theorem c3_witness :
    (∀ e ∈ [c3match], ∃ v, format_existing_act e = .ok v)
    ∧ is_act_present c3cand [c3match] [] = .ok true := by
  have hok : ∀ e ∈ [c3match], ∃ v, format_existing_act e = Except.ok v := by
    intro e he
    have hew : e = c3match := List.mem_singleton.mp he
    subst hew
    exact ⟨c3canon, by decide⟩
  refine ⟨hok, ?_⟩
  exact (c3_legacy_iff c3cand [c3match] []
      (fun x _ => List.not_mem_nil x) hok).mpr
    ⟨c3match, List.mem_singleton.mpr rfl, c3canon, by decide, by decide⟩

/-- An existing activity whose canonical form duplicates cDup7. -/
def e7 : Act :=
  { id := some (.str "7"), accountId := some (.str "1"),
    date := some "2024-01-01T00:00:00", fee := some (.num 0),
    quantity := some (.num 2), SymbolProfile := some { symbol := some "S1" },
    type := some "BUY", unitPrice := some (.num 1) }

/-- A candidate that duplicates e7. -/
def cDup7 : Act :=
  { accountId := some (.str "1"), date := some "2024-01-01T00:00:00",
    fee := some (.num 0), quantity := some (.num 2), symbol := some "S1",
    type := some "BUY", unitPrice := some (.num 1) }

/-- A genuinely new candidate. -/
def cNew7 : Act :=
  { accountId := some (.str "1"), date := some "2024-02-02T00:00:00",
    fee := some (.num 0), quantity := some (.num 3), symbol := some "S2",
    type := some "BUY", unitPrice := some (.num 1) }

set_option maxHeartbeats 1600000 in
/-- Witness for C7 at a concrete run: the duplicate is dropped, the new
candidate kept, in order. -/
theorem c7_witness :
    get_diff [e7] [cDup7, cNew7] = .ok [cNew7]
    ∧ (List.Sublist [cNew7] [cDup7, cNew7]
       ∧ [cNew7] = [cDup7, cNew7].filter (keeps [e7] (synced_ids [e7]))) := by
  exact ⟨by decide, c7_diff_order_filter [e7] [cDup7, cNew7] [cNew7] (by decide)⟩

theorem lookup_ne_empty {l : List (String × String)} (hl : ∀ p ∈ l, p.2 ≠ "")
    {cd s : String} (h : l.lookup cd = some s) : s ≠ "" := by
  induction l with
  | nil => simp [List.lookup] at h
  | cons p t ih =>
    obtain ⟨k, v⟩ := p
    rw [List.lookup] at h
    cases hc : (cd == k) with
    | true =>
      rw [hc] at h
      simp only [Option.some.injEq] at h
      exact h ▸ hl (k, v) (List.mem_cons_self _ _)
    | false =>
      rw [hc] at h
      exact ih (fun q hq => hl q (List.mem_cons_of_mem _ hq)) h

/-- The instance fund mapping seeded from the built-in table. -/
def default_mapping_fn (cd : String) : Option String :=
  default_fund_mapping.lookup cd

/-- C6: a holding with non-positive value, non-positive units or an
unmapped code emits nothing (and the emission function is total, so an
unmapped code never raises); every remaining holding emits exactly one BUY
with unit price 1.0, zero fee, quantity round(value, 2) and the mapped
symbol; and the reconstructor is exactly the per-holding emission mapped
over the list. -/
theorem c6_reconstructor (mapping : String → Option String)
    (currency today : String) (f : Fund)
    (hm : ∀ cd s, mapping cd = some s → s ≠ "") :
    ((f.value.getD 0 ≤ 0 ∨ f.units.getD 0 ≤ 0 ∨ mapping (fund_code f) = none) →
      emit_holding mapping currency today f = none)
    ∧ (∀ s, 0 < f.value.getD 0 → 0 < f.units.getD 0 →
        mapping (fund_code f) = some s →
        ∃ a, emit_holding mapping currency today f = some a
          ∧ a.type = some "BUY" ∧ a.unitPrice = some (.num 1)
          ∧ a.fee = some (.num 0)
          ∧ a.quantity = some (.num (pyRound2 (f.value.getD 0)))
          ∧ a.symbol = some s)
    ∧ (∀ funds : List Fund, reconstruct_fund_purchases mapping currency today funds
        = funds.filterMap (emit_holding mapping currency today)) := by
  refine ⟨?_, ?_, fun _ => rfl⟩
  · intro h
    unfold emit_holding
    rcases h with h | h | h
    · rw [if_pos (Or.inl h)]
    · rw [if_pos (Or.inr h)]
    · by_cases hv : f.value.getD 0 ≤ 0 ∨ f.units.getD 0 ≤ 0
      · rw [if_pos hv]
      · rw [if_neg hv, h]
  · intro s hv hu hs
    unfold emit_holding
    rw [if_neg (by push_neg; exact ⟨hv, hu⟩)]
    simp only [hs]
    rw [if_neg (hm _ _ hs)]
    exact ⟨_, rfl, rfl, rfl, rfl, rfl, rfl⟩

/-- C9: every holding that reaches the emission step has strictly positive
units and value (so the per-unit price value/units in the audit comment
never divides by zero), and the emitted comment is exactly that audit
annotation. -/
theorem c9_positive_units_at_emission (mapping : String → Option String)
    (currency today : String) (f : Fund) (a : Act)
    (h : emit_holding mapping currency today f = some a) :
    0 < f.units.getD 0 ∧ 0 < f.value.getD 0
    ∧ a.comment = some (mkHoldingComment (f.units.getD 0) (f.value.getD 0)) := by
  unfold emit_holding at h
  by_cases hv : f.value.getD 0 ≤ 0 ∨ f.units.getD 0 ≤ 0
  · rw [if_pos hv] at h
    simp at h
  · rw [if_neg hv] at h
    push_neg at hv
    cases hs : mapping (fund_code f) with
    | none =>
      simp only [hs] at h
      simp at h
    | some s =>
      simp only [hs] at h
      by_cases hse : s = ""
      · rw [if_pos hse] at h
        simp at h
      · rw [if_neg hse] at h
        refine ⟨hv.2, hv.1, ?_⟩
        rw [(Option.some.inj h).symm]

/-- A mapped holding with 100 units worth 150 dollars. -/
def c6fund : Fund :=
  { code := some "810003", name := some "NZ Equities Fund",
    units := some 100, value := some 150 }

set_option maxHeartbeats 1600000 in
/-- Witness for C6 at c6fund under the built-in mapping. -/
theorem c6_witness :
    (∀ cd s, default_mapping_fn cd = some s → s ≠ "")
    ∧ 0 < c6fund.value.getD 0 ∧ 0 < c6fund.units.getD 0
    ∧ default_mapping_fn (fund_code c6fund) = some "GF_KOURANZEQ"
    ∧ ∃ a, emit_holding default_mapping_fn "NZD" "2026-01-01T00:00:00" c6fund = some a
        ∧ a.type = some "BUY" ∧ a.unitPrice = some (.num 1) ∧ a.fee = some (.num 0)
        ∧ a.quantity = some (.num (pyRound2 (c6fund.value.getD 0)))
        ∧ a.symbol = some "GF_KOURANZEQ" := by
  have hm : ∀ cd s, default_mapping_fn cd = some s → s ≠ "" :=
    fun cd s h => lookup_ne_empty (by decide) h
  refine ⟨hm, by decide, by decide, by decide, ?_⟩
  exact (c6_reconstructor default_mapping_fn "NZD" "2026-01-01T00:00:00" c6fund hm).2.1
    "GF_KOURANZEQ" (by decide) (by decide) (by decide)

/-- The activity emitted for c6fund. -/
def c9emitted : Act :=
  { id := none, accountId := none,
    comment := some (mkHoldingComment 100 150),
    currency := some "NZD", dataSource := some "MANUAL",
    date := some "2026-01-01T00:00:00", fee := some (.num 0),
    quantity := some (.num (pyRound2 150)), symbol := some "GF_KOURANZEQ",
    SymbolProfile := none, type := some "BUY", unitPrice := some (.num 1) }

set_option maxHeartbeats 1600000 in
/-- Witness for C9 at c6fund. -/
theorem c9_witness :
    emit_holding default_mapping_fn "NZD" "2026-01-01T00:00:00" c6fund = some c9emitted
    ∧ 0 < c6fund.units.getD 0 ∧ 0 < c6fund.value.getD 0
    ∧ c9emitted.comment
        = some (mkHoldingComment (c6fund.units.getD 0) (c6fund.value.getD 0)) := by
  have h : emit_holding default_mapping_fn "NZD" "2026-01-01T00:00:00" c6fund
      = some c9emitted := rfl
  obtain ⟨h1, h2, h3⟩ :=
    c9_positive_units_at_emission default_mapping_fn "NZD" "2026-01-01T00:00:00"
      c6fund c9emitted h
  exact ⟨h, h1, h2, h3⟩

theorem beginsWith_iff (p s : List Char) :
    beginsWith p s = true ↔ ∃ t, s = p ++ t := by
  induction p generalizing s with
  | nil => simp [beginsWith]
  | cons a p ih =>
    cases s with
    | nil => simp [beginsWith]
    | cons b t =>
      rw [beginsWith]
      simp only [Bool.and_eq_true, decide_eq_true_eq]
      constructor
      · rintro ⟨hab, hb⟩
        obtain ⟨t2, ht⟩ := (ih t).mp hb
        subst hab
        exact ⟨t2, by rw [ht]; rfl⟩
      · rintro ⟨t2, ht⟩
        injection ht with h1 h2
        exact ⟨h1.symm, (ih t).mpr ⟨t2, h2⟩⟩

theorem dropWhile_head_false {p : Char → Bool} {l : List Char} {c : Char} {t : List Char}
    (h : l.dropWhile p = c :: t) : p c = false := by
  induction l with
  | nil => simp [List.dropWhile] at h
  | cons a l ih =>
    rw [List.dropWhile_cons] at h
    by_cases hp : p a
    · rw [if_pos hp] at h
      exact ih h
    · rw [if_neg hp] at h
      injection h with h1 _
      subst h1
      simpa using hp

theorem takeWhile_append_of {p : Char → Bool} {v r : List Char}
    (hv : ∀ c ∈ v, p c = true)
    (hr : r = [] ∨ ∃ c t, r = c :: t ∧ p c = false) :
    (v ++ r).takeWhile p = v := by
  induction v with
  | nil =>
    rcases hr with rfl | ⟨c, t, rfl, hc⟩
    · rfl
    · simp [List.takeWhile_cons, hc]
  | cons a v ih =>
    rw [List.cons_append, List.takeWhile_cons, if_pos (hv a (List.mem_cons_self _ _))]
    rw [ih (fun c hc => hv c (List.mem_cons_of_mem _ hc))]

theorem matchAt_nil : matchAt [] = none := by decide

theorem matchAt_some_iff (l v : List Char) :
    matchAt l = some v ↔
      ∃ r, l = markerChars ++ v ++ r ∧ v ≠ [] ∧ (∀ ch ∈ v, ch ≠ '|')
        ∧ (r = [] ∨ ∃ r2, r = '|' :: r2) := by
  constructor
  · intro h
    unfold matchAt at h
    by_cases hb : beginsWith markerChars l
    · rw [if_pos hb] at h
      obtain ⟨t, rfl⟩ := (beginsWith_iff _ _).mp hb
      rw [List.drop_left] at h
      by_cases hv : t.takeWhile (fun c => c ≠ '|') = []
      · rw [if_pos hv] at h
        simp at h
      · rw [if_neg hv] at h
        have hveq : t.takeWhile (fun c => c ≠ '|') = v := Option.some.inj h
        refine ⟨t.dropWhile (fun c => c ≠ '|'), ?_, ?_, ?_, ?_⟩
        · rw [List.append_assoc]
          congr 1
          rw [← hveq]
          exact (List.takeWhile_append_dropWhile _ _).symm
        · rw [← hveq]
          exact hv
        · intro ch hch
          rw [← hveq] at hch
          simpa using List.mem_takeWhile_imp hch
        · cases hd : t.dropWhile (fun c => c ≠ '|') with
          | nil => exact Or.inl rfl
          | cons c r2 =>
            right
            have hc : c = '|' := by simpa using dropWhile_head_false hd
            exact ⟨r2, by rw [hc]⟩
    · rw [if_neg hb] at h
      simp at h
  · rintro ⟨r, rfl, hv, hpipe, hr⟩
    unfold matchAt
    have hb : beginsWith markerChars (markerChars ++ v ++ r) = true :=
      (beginsWith_iff _ _).mpr ⟨v ++ r, by rw [List.append_assoc]⟩
    rw [if_pos hb, List.append_assoc, List.drop_left]
    have htw : (v ++ r).takeWhile (fun c => (c ≠ '|' : Bool)) = v := by
      apply takeWhile_append_of
      · intro c hc
        simpa using hpipe c hc
      · rcases hr with rfl | ⟨r2, rfl⟩
        · exact Or.inl rfl
        · exact Or.inr ⟨'|', r2, rfl, by simp⟩
    rw [htw, if_neg hv]

theorem findMarker_some_iff (s v : List Char) :
    findMarker s = some v ↔
      ∃ i, matchAt (s.drop i) = some v ∧ ∀ j < i, matchAt (s.drop j) = none := by
  induction s with
  | nil =>
    rw [findMarker]
    constructor
    · intro h
      simp at h
    · rintro ⟨i, hi, _⟩
      rw [List.drop_nil, matchAt_nil] at hi
      simp at hi
  | cons c t ih =>
    rw [findMarker]
    cases hm : matchAt (c :: t) with
    | some w =>
      constructor
      · intro h
        have hwv : w = v := Option.some.inj h
        subst hwv
        exact ⟨0, by simpa using hm, by omega⟩
      · rintro ⟨i, hi, hj⟩
        cases i with
        | zero =>
          rw [List.drop_zero, hm] at hi
          exact hi
        | succ i' =>
          have h0 := hj 0 (by omega)
          rw [List.drop_zero, hm] at h0
          simp at h0
    | none =>
      rw [ih]
      constructor
      · rintro ⟨i, hi, hj⟩
        refine ⟨i + 1, by simpa [List.drop_succ_cons] using hi, ?_⟩
        intro j hjlt
        cases j with
        | zero => simpa using hm
        | succ j' =>
          rw [List.drop_succ_cons]
          exact hj j' (by omega)
      · rintro ⟨i, hi, hj⟩
        cases i with
        | zero =>
          rw [List.drop_zero, hm] at hi
          simp at hi
        | succ i' =>
          rw [List.drop_succ_cons] at hi
          refine ⟨i', hi, fun j hjlt => ?_⟩
          have := hj (j + 1) (by omega)
          rwa [List.drop_succ_cons] at this

theorem findMarker_none_iff (s : List Char) :
    findMarker s = none ↔ ∀ i, matchAt (s.drop i) = none := by
  induction s with
  | nil =>
    rw [findMarker]
    simp [matchAt_nil]
  | cons c t ih =>
    rw [findMarker]
    cases hm : matchAt (c :: t) with
    | some w =>
      constructor
      · intro h
        simp at h
      · intro h
        have := h 0
        rw [List.drop_zero, hm] at this
        simp at this
    | none =>
      rw [ih]
      constructor
      · intro h i
        cases i with
        | zero => simpa using hm
        | succ i' =>
          rw [List.drop_succ_cons]
          exact h i'
      · intro h i
        have := h (i + 1)
        rwa [List.drop_succ_cons] at this

/-- C8 (amended): the extractor returns absence on an absent comment; on a
present comment it is re.search of the marker pattern, returning the value
of the leftmost position at which the marker is followed by at least one
non-pipe character; an anchored match is exactly a decomposition
marker ++ value ++ rest with the value a nonempty pipe-free run terminated
by a pipe or the end of the string; absence means no position matches; and
the synced-identifier set holds exactly the successfully extracted
identifiers of the existing activities, malformed or absent ones
contributing nothing. -/
theorem c8_identifier_extraction :
    extract_transaction_id none = none
    ∧ (∀ s : String, extract_transaction_id (some s)
        = (findMarker s.toList).map (fun l => String.mk l))
    ∧ (∀ s v : List Char, findMarker s = some v ↔
        ∃ i, matchAt (s.drop i) = some v ∧ ∀ j < i, matchAt (s.drop j) = none)
    ∧ (∀ l v : List Char, matchAt l = some v ↔
        ∃ r, l = markerChars ++ v ++ r ∧ v ≠ [] ∧ (∀ ch ∈ v, ch ≠ '|')
          ∧ (r = [] ∨ ∃ r2, r = '|' :: r2))
    ∧ (∀ s : List Char, findMarker s = none ↔ ∀ i, matchAt (s.drop i) = none)
    ∧ (∀ acts : List Act, ∀ x : String,
        x ∈ synced_ids acts ↔ ∃ a ∈ acts, extract_transaction_id a.comment = some x) :=
  ⟨rfl, fun _ => rfl, findMarker_some_iff, matchAt_some_iff, findMarker_none_iff,
   fun _ _ => mem_synced_ids⟩

set_option maxHeartbeats 1600000 in
/-- Counterexample to C8 as stated: the first occurrence of the marker in
this comment is followed immediately by a pipe (its run is empty), and the
extractor returns the value of a later occurrence instead. -/
theorem c8_counterexample :
    extract_transaction_id (some "transactionId=|transactionId=ABC") = some "ABC"
    ∧ beginsWith markerChars ("transactionId=|transactionId=ABC".toList) = true
    ∧ ("transactionId=|transactionId=ABC".toList.drop markerChars.length).takeWhile
        (fun c => c ≠ '|') = []
    ∧ (some "ABC" : Option String) ≠ some ""
    ∧ (some "ABC" : Option String) ≠ none := by
  exact ⟨by decide, by decide, by decide, by decide, by decide⟩

set_option maxHeartbeats 1600000 in
/-- Witness for C8 (amended): the marker at position 3 is the leftmost
matching one. -/
theorem c8_witness :
    findMarker ("ab|transactionId=X1|c".toList) = some ("X1".toList) :=
  (c8_identifier_extraction.2.2.1 "ab|transactionId=X1|c".toList "X1".toList).mpr
    ⟨3, by decide, by decide⟩

theorem dateLt_irrefl (a : VDate) : dateLt a a = false := by
  obtain ⟨y, m, d⟩ := a
  simp [dateLt]

theorem dateLt_false_of_le {a b : VDate} (h : dateLe a b = true) :
    dateLt b a = false := by
  obtain ⟨ay, am, ad⟩ := a
  obtain ⟨by2, bm, bd⟩ := b
  simp only [dateLe, dateLt, Bool.or_eq_true, Bool.and_eq_true,
    decide_eq_true_eq, VDate.mk.injEq] at h
  simp only [dateLt, Bool.or_eq_true, Bool.and_eq_true, decide_eq_true_eq,
    Bool.or_eq_false_iff, Bool.and_eq_false_iff, decide_eq_false_iff_not]
  omega

theorem dateLt_or_eq_of_not_lt {a b : VDate} (h : dateLt a b = false) :
    dateLt b a = true ∨ b = a := by
  obtain ⟨ay, am, ad⟩ := a
  obtain ⟨by2, bm, bd⟩ := b
  simp only [dateLt, Bool.or_eq_false_iff, Bool.and_eq_false_iff,
    decide_eq_false_iff_not] at h
  simp only [dateLt, Bool.or_eq_true, Bool.and_eq_true, decide_eq_true_eq,
    VDate.mk.injEq]
  omega

theorem nodup_keys_snd {l : List (VDate × Rat)} (h : (l.map Prod.fst).Nodup)
    {c : VDate} {p : Rat} (hm : (c, p) ∈ l) :
    ∀ e ∈ l, e.1 = c → e.2 = p := by
  induction l with
  | nil => cases hm
  | cons a t ih =>
    rw [List.map_cons, List.nodup_cons] at h
    intro e he heq
    rcases List.mem_cons.mp hm with hma | hmt
    · rcases List.mem_cons.mp he with hea | het
      · rw [hea, ← hma]
      · exfalso
        apply h.1
        have hc : c ∈ t.map Prod.fst := heq ▸ List.mem_map_of_mem Prod.fst het
        have ha1 : a.1 = c := by rw [← hma]
        rw [ha1]
        exact hc
    · rcases List.mem_cons.mp he with hea | het
      · exfalso
        apply h.1
        have hc : c ∈ t.map Prod.fst := List.mem_map_of_mem Prod.fst hmt
        have ha1 : a.1 = c := by rw [← hea, heq]
        rw [ha1]
        exact hc
      · exact ih h.2 hmt e het heq

theorem fold_keep {td : VDate} {l : List (VDate × Rat)}
    (h : ∀ e ∈ l, dateLe e.1 td = false) :
    ∀ acc, l.foldl (closest_step td) acc = acc := by
  induction l with
  | nil => intro acc; rfl
  | cons e t ih =>
    intro acc
    rw [List.foldl_cons]
    have hstep : closest_step td acc e = acc := by
      unfold closest_step
      rw [if_neg (by simp [h e (List.mem_cons_self _ _)])]
    rw [hstep]
    exact ih (fun e' he' => h e' (List.mem_cons_of_mem _ he')) acc

theorem fold_max {td c : VDate} {p : Rat} {l : List (VDate × Rat)}
    (hle : dateLe c td = true)
    (hmax : ∀ e ∈ l, dateLe e.1 td = true → dateLt c e.1 = false)
    (huniq : ∀ e ∈ l, e.1 = c → e.2 = p) :
    ∀ l' : List (VDate × Rat), (∀ e ∈ l', e ∈ l) →
    ∀ acc : Option VDate × Option Rat,
      ((acc = (none, none) ∧ (c, p) ∈ l') ∨
       (∃ c0 p0, acc = (some c0, some p0) ∧ dateLe c0 td = true ∧
         ((dateLt c0 c = true ∧ (c, p) ∈ l') ∨ (c0 = c ∧ p0 = p)))) →
      l'.foldl (closest_step td) acc = (some c, some p) := by
  intro l'
  induction l' with
  | nil =>
    intro _ acc hacc
    rcases hacc with ⟨_, hmem⟩ | ⟨c0, p0, hacc, _, hrest⟩
    · cases hmem
    · rcases hrest with ⟨_, hmem⟩ | ⟨rfl, rfl⟩
      · cases hmem
      · rw [hacc]
        rfl
  | cons e t ih =>
    intro hsub acc hacc
    rw [List.foldl_cons]
    apply ih (fun e' he' => hsub e' (List.mem_cons_of_mem _ he'))
    by_cases hel : dateLe e.1 td = true
    · have hcnot : dateLt c e.1 = false := hmax e (hsub e (List.mem_cons_self _ _)) hel
      rcases hacc with ⟨hacc, hmem⟩ | ⟨c0, p0, hacc, hc0le, hrest⟩
      · subst hacc
        have hstep : closest_step td (none, none) e = (some e.1, some e.2) := by
          unfold closest_step
          rw [if_pos hel]
        rw [hstep]
        rcases dateLt_or_eq_of_not_lt hcnot with hlt | heq
        · right
          refine ⟨e.1, e.2, rfl, hel, Or.inl ⟨hlt, ?_⟩⟩
          rcases List.mem_cons.mp hmem with heq2 | hmem'
          · exfalso
            have he1 : e.1 = c := by rw [← heq2]
            rw [he1] at hlt
            rw [dateLt_irrefl] at hlt
            cases hlt
          · exact hmem'
        · right
          exact ⟨e.1, e.2, rfl, hel,
            Or.inr ⟨heq, huniq e (hsub e (List.mem_cons_self _ _)) heq⟩⟩
      · subst hacc
        have hstep : closest_step td (some c0, some p0) e
            = if dateLt c0 e.1 then (some e.1, some e.2) else (some c0, some p0) := by
          unfold closest_step
          rw [if_pos hel]
        rw [hstep]
        by_cases hlt0 : dateLt c0 e.1 = true
        · rw [if_pos hlt0]
          rcases dateLt_or_eq_of_not_lt hcnot with hlt | heq
          · right
            refine ⟨e.1, e.2, rfl, hel, Or.inl ⟨hlt, ?_⟩⟩
            rcases hrest with ⟨hc0lt, hmem⟩ | ⟨rfl, rfl⟩
            · rcases List.mem_cons.mp hmem with heq2 | hmem'
              · exfalso
                have he1 : e.1 = c := by rw [← heq2]
                rw [he1] at hlt
                rw [dateLt_irrefl] at hlt
                cases hlt
              · exact hmem'
            · exfalso
              rw [hlt0] at hcnot
              cases hcnot
          · right
            exact ⟨e.1, e.2, rfl, hel,
              Or.inr ⟨heq, huniq e (hsub e (List.mem_cons_self _ _)) heq⟩⟩
        · rw [if_neg hlt0]
          right
          refine ⟨c0, p0, rfl, hc0le, ?_⟩
          rcases hrest with ⟨hc0lt, hmem⟩ | ⟨rfl, rfl⟩
          · left
            refine ⟨hc0lt, ?_⟩
            rcases List.mem_cons.mp hmem with heq2 | hmem'
            · exfalso
              have he1 : e.1 = c := by rw [← heq2]
              rw [he1] at hlt0
              exact hlt0 hc0lt
            · exact hmem'
          · exact Or.inr ⟨rfl, rfl⟩
    · have hstep : closest_step td acc e = acc := by
        unfold closest_step
        rw [if_neg hel]
      rw [hstep]
      rcases hacc with ⟨hacc, hmem⟩ | ⟨c0, p0, hacc, hc0le, hrest⟩
      · left
        refine ⟨hacc, ?_⟩
        rcases List.mem_cons.mp hmem with heq2 | hmem'
        · exfalso
          apply hel
          have he1 : e.1 = c := by rw [← heq2]
          rw [he1]
          exact hle
        · exact hmem'
      · right
        refine ⟨c0, p0, hacc, hc0le, ?_⟩
        rcases hrest with ⟨hlt, hmem⟩ | heq
        · left
          refine ⟨hlt, ?_⟩
          rcases List.mem_cons.mp hmem with heq2 | hmem'
          · exfalso
            apply hel
            have he1 : e.1 = c := by rw [← heq2]
            rw [he1]
            exact hle
          · exact hmem'
        · exact Or.inr heq

/-- C10: over a valuation map with distinct date keys, the price lookup
returns the exact-date price when the requested date is a key, otherwise
the price at the greatest valuation date not after the requested date, and
none (without raising) when no valuation date is on or before it. -/
theorem c10_unit_price_lookup (f : Fund) (td : VDate)
    (hnd : ((f.valuation.getD []).map Prod.fst).Nodup) :
    (∀ p, (f.valuation.getD []).lookup td = some p →
      get_unit_price_for_date f td = some p)
    ∧ ((f.valuation.getD []).lookup td = none →
        ((∀ e ∈ f.valuation.getD [], dateLe e.1 td = false) →
          get_unit_price_for_date f td = none)
        ∧ (∀ c p, (c, p) ∈ f.valuation.getD [] → dateLe c td = true →
            (∀ e ∈ f.valuation.getD [], dateLe e.1 td = true → dateLe e.1 c = true) →
            get_unit_price_for_date f td = some p)) := by
  constructor
  · intro p hp
    unfold get_unit_price_for_date
    simp only [hp]
  · intro hnone
    constructor
    · intro hall
      unfold get_unit_price_for_date
      simp only [hnone]
      rw [fold_keep hall (none, none)]
    · intro c p hmem hcle hmax
      unfold get_unit_price_for_date
      simp only [hnone]
      have hmax' : ∀ e ∈ f.valuation.getD [], dateLe e.1 td = true →
          dateLt c e.1 = false :=
        fun e he hel => dateLt_false_of_le (hmax e he hel)
      have huniq := nodup_keys_snd hnd hmem
      rw [fold_max hcle hmax' huniq (f.valuation.getD []) (fun _ he => he)
        (none, none) (Or.inl ⟨rfl, hmem⟩)]

/-- A fund with two valuation entries around the requested date. -/
def f10c : Fund :=
  { valuation := some [(⟨2024, 1, 1⟩, 5), (⟨2024, 1, 3⟩, 7)] }

set_option maxHeartbeats 1600000 in
/-- Witness for C10: no exact key for 2024-01-02, so the price at
2024-01-01, the greatest earlier valuation date, is returned. -/
theorem c10_witness :
    ((f10c.valuation.getD []).map Prod.fst).Nodup
    ∧ (f10c.valuation.getD []).lookup ⟨2024, 1, 2⟩ = none
    ∧ get_unit_price_for_date f10c ⟨2024, 1, 2⟩ = some 5 := by
  have hnd : ((f10c.valuation.getD []).map Prod.fst).Nodup := by decide
  refine ⟨hnd, by decide, ?_⟩
  exact ((c10_unit_price_lookup f10c ⟨2024, 1, 2⟩ hnd).2 (by decide)).2
    ⟨2024, 1, 1⟩ 5 (by decide) (by decide) (by decide)
